import Mathlib

/-!
# mcp-go stdio client: shutdown sequence and process-tree killer

Shallow embedding of

* `client/stdio.go`            : `StdioMCPClient.Close`, `GetStderr`, `killOnWindows`
* `client/inprocess.go`        : `NewInProcessClient`
* `client/transport/close_on_other.go`   : `killProcess` (POSIX build)
* `client/transport/close_on_windows.go` : `killByPid`, `killProcess` (Windows build)

Operating-system and library calls (`process.NewProcess`, `proc.Children`,
`os.FindProcess`, `p.Kill`, `syscall.Kill`, pipe closes, `cmd.Wait`, the two
`select` races) are not part of the repository; they enter the model as
oracles carried by an environment record, so every theorem quantifies over
all their possible answers.
-/

namespace McpGo

/-! ## Go values -/

/-- Go `error` values that are not nil: an error number reported by the operating
system, an error of a library given by its text, or an error built by
`fmt.Errorf(format, inner)` with a `%w` verb. -/
inductive GoError where
  | os (code : Nat)
  | text (msg : String)
  | wrapf (format : String) (inner : GoError)
deriving DecidableEq, Repr

/-- Go's `int32(x)` conversion of an `int`: two's-complement truncation to 32 bits. -/
def int32 (x : Int) : Int := (x + 2 ^ 31) % 2 ^ 32 - 2 ^ 31

/-- How a Go call ends: it returns a value or it panics. -/
inductive Outcome (α : Type) where
  | returned (val : α)
  | panicked (msg : String)
deriving DecidableEq, Repr

/-! ## Windows tree killer (`killByPid`, `killOnWindows`) -/

/-- Observable actions of the tree killer: a `p.Kill()` attempt on a process, and
a `fmt.Printf("Failed to kill pid %d: %v\n", pid, err)` line. -/
inductive KEvent where
  | kill (pid : Int)
  | log (pid : Int) (err : GoError)
deriving DecidableEq, Repr

/-- Answers of the calls the tree killer makes: `process.NewProcess(pid32)` (its
error, if any), `proc.Children()` of the handle for `pid32`, `os.FindProcess(pid)`
(its error, if any) and `p.Kill()` on the process found for `pid`. -/
structure WinOS where
  newProcess : Int → Option GoError
  children : Int → Except GoError (List Int)
  findProcess : Int → Option GoError
  kill : Int → Option GoError

/-- The `for _, child := range children` loop shared by both tree killers: `recurse`
is the recursive call; a non-nil result of it is printed and then overwritten. The
loop yields `none` only when a recursive call does not finish. -/
def killLoop (recurse : Int → Option (Option GoError × List KEvent)) :
    List Int → Option (List KEvent)
  | [] => some []
  | child :: rest =>
    match recurse child with
    | none => none
    | some (err, tr) =>
      let printed : List KEvent :=
        match err with
        | some e => [KEvent.log child e]
        | none => []
      match killLoop recurse rest with
      | none => none
      | some more => some (tr ++ printed ++ more)

/-- The tail of both tree killers, after the children loop: `os.FindProcess`, then
`p.Kill()`, printing a failed kill; the error returned is the last one assigned. -/
def killSelf (os : WinOS) (pid : Int) (sofar : List KEvent) : Option GoError × List KEvent :=
  match os.findProcess pid with
  | some e => (some e, sofar)
  | none =>
    match os.kill pid with
    | some e => (some e, sofar ++ [KEvent.kill pid, KEvent.log pid e])
    | none => (none, sofar ++ [KEvent.kill pid])

/-- Function `killByPid` of `close_on_windows.go`. The recursion depth is bounded by
`fuel`; `none` means the bound was reached. The result is the returned error and the
actions performed, in order. -/
def killByPid : Nat → WinOS → Int → Option (Option GoError × List KEvent)
  | 0, _, _ => none
  | fuel + 1, os, pid =>
    match os.newProcess (int32 pid) with
    | some err => some (some err, [])
    | none =>
      match os.children (int32 pid) with
      | .error _ => some (killSelf os pid [])
      | .ok children =>
        match killLoop (killByPid fuel os) children with
        | none => none
        | some tr => some (killSelf os pid tr)

/-- Function `killOnWindows` of `client/stdio.go`: the same body as `killByPid`,
recursing into itself. -/
def killOnWindows : Nat → WinOS → Int → Option (Option GoError × List KEvent)
  | 0, _, _ => none
  | fuel + 1, os, pid =>
    match os.newProcess (int32 pid) with
    | some err => some (some err, [])
    | none =>
      match os.children (int32 pid) with
      | .error _ => some (killSelf os pid [])
      | .ok children =>
        match killLoop (killOnWindows fuel os) children with
        | none => none
        | some tr => some (killSelf os pid tr)

/-- The pids on which a kill was attempted, in order. -/
def kills : List KEvent → List Int
  | [] => []
  | KEvent.kill p :: rest => p :: kills rest
  | KEvent.log _ _ :: rest => kills rest

/-- Handle `*os.Process`; only its `Pid` field is read by this code. -/
structure OsProcess where
  pid : Int
deriving DecidableEq, Repr

/-- Function `killProcess` of `close_on_windows.go`; a nil handle is `none`. -/
def Windows.killProcess (fuel : Nat) (os : WinOS) :
    Option OsProcess → Option (Option GoError × List KEvent)
  | none => some (none, [])
  | some p => killByPid fuel os p.pid

/-! ## POSIX killer (`killProcess` of `close_on_other.go`) -/

/-- Signals used by the code. -/
inductive Signal where
  | SIGTERM
  | SIGKILL
deriving DecidableEq, Repr

/-- Answer of `syscall.Kill(target, sig)`: its error, if any. -/
structure PosixOS where
  kill : Int → Signal → Option GoError

/-- Function `killProcess` of `close_on_other.go`: one `SIGKILL` addressed to the
negated pid, whose result is returned unchanged. Reading `proc.Pid` through a nil
handle panics. -/
def Posix.killProcess (os : PosixOS) : Option OsProcess → Outcome (Option GoError)
  | none => .panicked "invalid memory address or nil pointer dereference"
  | some proc => .returned (os.kill (-proc.pid) Signal.SIGKILL)

/-! ## Process tables (the environment of the tree killer) -/

/-- One row of a process snapshot: a process and the parent recorded for it. -/
structure ProcEntry where
  pid : Int
  ppid : Int
deriving DecidableEq, Repr

/-- A finite process table. -/
abbrev ProcTable := List ProcEntry

/-- The pids whose recorded parent is `p`, in snapshot order. -/
def childrenOf (t : ProcTable) (p : Int) : List Int :=
  (t.filter (fun e => e.ppid == p)).map (fun e => e.pid)

/-- Process `c` is recorded in the table as a child of `p`. -/
def IsChild (t : ProcTable) (c p : Int) : Prop :=
  ∃ e ∈ t, e.pid = c ∧ e.ppid = p

/-- Process `d` is a (proper) descendant of `a`. -/
def Desc (t : ProcTable) (a d : Int) : Prop :=
  Relation.TransGen (fun x y => IsChild t y x) a d

/-- The parent relation has no cycle: no process is its own descendant. -/
def Acyclic (t : ProcTable) : Prop := ∀ p, ¬ Desc t p p

/-- Each pid has one row. -/
def UniquePids (t : ProcTable) : Prop := (t.map (fun e => e.pid)).Nodup

/-- Process `x` can be looked up: `process.NewProcess` and `os.FindProcess` succeed
for it and `Children()` enumerates exactly the table's children of `x`. -/
def LookupOk (os : WinOS) (t : ProcTable) (x : Int) : Prop :=
  os.newProcess (int32 x) = none ∧
  os.children (int32 x) = .ok (childrenOf t x) ∧
  os.findProcess x = none

/-- Error number `ESRCH`, "no such process". -/
def ESRCH : GoError := GoError.os 3

/-- Error number `ERROR_ACCESS_DENIED`. -/
def accessDenied : GoError := GoError.os 5

/-- Error number `ERROR_INVALID_PARAMETER`, the answer of `OpenProcess` for a pid
that is not live. -/
def invalidParameter : GoError := GoError.os 87

/-- Error `process.ErrorProcessNotRunning` of gopsutil. -/
def ErrorProcessNotRunning : GoError := GoError.text "process does not exist"

/-- An operating system whose process list is the table `t`: lookups succeed exactly
for pids in the table (pids being 32-bit values), `Children()` enumerates the table,
and `killErr` tells which kill attempts fail. -/
def snapshotOS (t : ProcTable) (killErr : Int → Option GoError) : WinOS where
  newProcess := fun q =>
    if t.any (fun e => e.pid == q) then none else some ErrorProcessNotRunning
  children := fun q => .ok (childrenOf t q)
  findProcess := fun q =>
    if t.any (fun e => e.pid == q) then none else some invalidParameter
  kill := killErr

/-- Live POSIX processes with their process group. -/
structure PosixProc where
  pid : Int
  pgid : Int
deriving DecidableEq, Repr

/-- The `kill(2)` rule for the targets this code uses: a signal to `-g` with `g > 1`
reaches the members of group `g` and fails with `ESRCH` when the group has no member;
a signal to a pid fails with `ESRCH` when no such process is live. -/
def posixOfTable (live : List PosixProc) : PosixOS where
  kill := fun target _ =>
    if target < -1 then
      if live.any (fun p => p.pgid == -target) then none else some ESRCH
    else if live.any (fun p => p.pid == target) then none else some ESRCH

/-- Process `x` is `a` or one of its descendants. -/
def InTree (t : ProcTable) (a x : Int) : Prop := x = a ∨ Desc t a x

/-- Where `Children()` succeeds for `x`, it enumerates the table's children of `x`. -/
def ChildrenAgree (os : WinOS) (t : ProcTable) (x : Int) : Prop :=
  ∀ cs, os.children (int32 x) = .ok cs → cs = childrenOf t x

/-- Sequence `ks` of killed pids, with returned error `res`, is a children-first walk
below `p`: no pid twice, only members of the tree below `p`, no process after one of
its ancestors, `p` last if present; and when every lookup in the tree succeeds, the
walk holds the whole tree, ends with `p`, and `res` is the result of killing `p`. -/
def Walk (t : ProcTable) (os : WinOS) (p : Int) (res : Option GoError) (ks : List Int) :
    Prop :=
  ks.Nodup ∧ (∀ x ∈ ks, InTree t p x) ∧ ks.Pairwise (fun a b => ¬ Desc t a b) ∧
    (p ∈ ks → ∃ pre, ks = pre ++ [p]) ∧
    ((∀ x, InTree t p x → LookupOk os t x) →
      res = os.kill p ∧ (∀ x, InTree t p x → x ∈ ks) ∧ ∃ pre, ks = pre ++ [p])

/-! ## `StdioMCPClient.Close` -/

/-- Modelled from the spec: the receiver type of `Close`, whose declaration is
missing. The spec's Stdio transport "owns the subprocess handle" and has "a completion
channel"; kept are what `Close` touches of them: whether channel `c.done` has been
closed already, and `c.cmd.Process.Pid`. -/
structure StdioMCPClient where
  doneClosed : Bool
  pid : Int
deriving DecidableEq, Repr

/-- Steps of `Close`, in program order: `close(c.done)`, `c.stdin.Close()`,
`c.stderr.Close()`, the start of the goroutine running `c.cmd.Wait()`, a completed
receive from `errChan`, the expiry of `time.After(3 * time.Second)`, a signal sent
through `c.cmd.Process` (`Signal(SIGTERM)` or `Kill()`, both addressed to the pid
itself), the expiry of `time.After(1 * time.Second)`, and an action of
`killOnWindows`. -/
inductive Event where
  | closeDone
  | closeStdin
  | closeStderr
  | spawnWait
  | recvWait
  | timer3s
  | signal (target : Int) (sig : Signal)
  | timer1s
  | tree (e : KEvent)
deriving DecidableEq, Repr

/-- Everything outside the program that decides one run of `Close`: the platform
(`runtime.GOOS == "windows"`), the results of the two pipe closes, the value
`c.cmd.Wait()` produces, which case each `select` takes (`true`: the receive from
`errChan`; `false`: the timer), and the systems answering signals and the Windows
process calls. -/
structure CloseEnv where
  goosWindows : Bool
  stdinClose : Option GoError
  stderrClose : Option GoError
  waitResult : Option GoError
  firstSelectWait : Bool
  secondSelectWait : Bool
  posix : PosixOS
  win : WinOS

/-- One run of `Close`: the steps taken, how the call ended (`none`: the tree kill
was still running when the fuel ran out), and the client afterwards. -/
structure CloseRun where
  trace : List Event
  outcome : Option (Outcome (Option GoError))
  client : StdioMCPClient

/-- Method `StdioMCPClient.Close` of `client/stdio.go`. Closing a channel that is
closed already panics. `Process.Signal(sig)` and `Process.Kill()` signal the single
process `pid`. -/
def StdioMCPClient.Close (fuel : Nat) (env : CloseEnv) (c : StdioMCPClient) : CloseRun :=
  if c.doneClosed then
    { trace := [], outcome := some (.panicked "close of closed channel"), client := c }
  else
    let c1 : StdioMCPClient := { c with doneClosed := true }
    match env.stdinClose with
    | some e =>
      { trace := [.closeDone, .closeStdin],
        outcome := some (.returned (some (.wrapf "failed to close stdin: %w" e))),
        client := c1 }
    | none =>
    match env.stderrClose with
    | some e =>
      { trace := [.closeDone, .closeStdin, .closeStderr],
        outcome := some (.returned (some (.wrapf "failed to close stderr: %w" e))),
        client := c1 }
    | none =>
    if env.firstSelectWait then
      { trace := [.closeDone, .closeStdin, .closeStderr, .spawnWait, .recvWait],
        outcome := some (.returned env.waitResult),
        client := c1 }
    else if env.goosWindows then
      match killOnWindows fuel env.win c.pid with
      | none =>
        { trace := [.closeDone, .closeStdin, .closeStderr, .spawnWait, .timer3s],
          outcome := none,
          client := c1 }
      | some (err, tr) =>
        { trace := [.closeDone, .closeStdin, .closeStderr, .spawnWait, .timer3s]
            ++ tr.map Event.tree,
          outcome := some (.returned err),
          client := c1 }
    else
      match env.posix.kill c.pid Signal.SIGTERM with
      | some e =>
        { trace := [.closeDone, .closeStdin, .closeStderr, .spawnWait, .timer3s,
            .signal c.pid Signal.SIGTERM],
          outcome := some (.returned (some (.wrapf "failed to send SIGTERM: %w" e))),
          client := c1 }
      | none =>
      if env.secondSelectWait then
        { trace := [.closeDone, .closeStdin, .closeStderr, .spawnWait, .timer3s,
            .signal c.pid Signal.SIGTERM, .recvWait],
          outcome := some (.returned env.waitResult),
          client := c1 }
      else
        match env.posix.kill c.pid Signal.SIGKILL with
        | some e =>
          { trace := [.closeDone, .closeStdin, .closeStderr, .spawnWait, .timer3s,
              .signal c.pid Signal.SIGTERM, .timer1s, .signal c.pid Signal.SIGKILL],
            outcome := some (.returned (some (.wrapf "failed to send SIGKILL: %w" e))),
            client := c1 }
        | none =>
          { trace := [.closeDone, .closeStdin, .closeStderr, .spawnWait, .timer3s,
              .signal c.pid Signal.SIGTERM, .timer1s, .signal c.pid Signal.SIGKILL,
              .recvWait],
            outcome := some (.returned env.waitResult),
            client := c1 }

/-- A forceful kill: `SIGKILL` through `Process.Kill()`, or a `p.Kill()` of the
Windows tree killer. -/
def Event.isKill : Event → Bool
  | .signal _ Signal.SIGKILL => true
  | .tree (KEvent.kill _) => true
  | _ => false

/-- A `SIGTERM`. -/
def Event.isTerm : Event → Bool
  | .signal _ Signal.SIGTERM => true
  | _ => false

/-- A signal or kill of either sort. -/
def Event.isSignalOrKill (e : Event) : Bool := e.isTerm || e.isKill

/-! ## `GetStderr` and `NewInProcessClient` -/

/-- A value of interface type `io.Reader`, by identity. -/
structure Reader where
  handle : Nat
deriving DecidableEq, Repr

/-- Modelled from the spec: type `transport.Stdio`, whose declaration is missing;
the spec gives the Stdio variant "a readable error-stream capability". -/
structure Stdio where
  stderr : Reader
deriving DecidableEq, Repr

/-- Modelled from the spec: method `(*transport.Stdio).Stderr`, the reader of the
subprocess's error stream. -/
def Stdio.Stderr (s : Stdio) : Reader := s.stderr

/-- A value of type `*server.MCPServer`, by identity. -/
structure MCPServer where
  handle : Nat
deriving DecidableEq, Repr

/-- Modelled from the spec: the in-process transport, "a client-side handle" bound
"directly to a server object living in the same runtime". -/
structure InProcessTransport where
  server : MCPServer
deriving DecidableEq, Repr

/-- Modelled from the spec: constructor `transport.NewInProcessTransport`. -/
def NewInProcessTransport (server : MCPServer) : InProcessTransport := { server := server }

/-- A value of the transport interface type, by its dynamic type: `*transport.Stdio`,
`*transport.InProcessTransport`, some other implementation named by its type, or the
nil interface. -/
inductive Transport where
  | stdio (t : Stdio)
  | inProcess (t : InProcessTransport)
  | other (typeName : String)
  | nil
deriving DecidableEq, Repr

/-- Modelled from the spec: the client facade, which "binds any transport ... to the
protocol layer"; only the bound transport matters here. -/
structure Client where
  transport : Transport
deriving DecidableEq, Repr

/-- Modelled from the spec: constructor `NewClient`. -/
def NewClient (t : Transport) : Client := { transport := t }

/-- Modelled from the spec: method `(*Client).GetTransport`. -/
def Client.GetTransport (c : Client) : Transport := c.transport

/-- Function `NewInProcessClient` of `client/inprocess.go`: the client and a nil error. -/
def NewInProcessClient (server : MCPServer) : Client × Option GoError :=
  (NewClient (Transport.inProcess (NewInProcessTransport server)), none)

/-- Function `GetStderr` of `client/stdio.go`. The type assertion
`t.(*transport.Stdio)` has no `ok` result, so it panics for every other dynamic type. -/
def GetStderr (c : Client) : Outcome Reader :=
  match c.GetTransport with
  | .stdio s => .returned s.Stderr
  | .inProcess _ =>
    .panicked "interface conversion: interface is *transport.InProcessTransport, not *transport.Stdio"
  | .other name =>
    .panicked ("interface conversion: interface is " ++ name ++ ", not *transport.Stdio")
  | .nil => .panicked "interface conversion: interface is nil, not *transport.Stdio"

/-! ## Concrete inputs -/

/-- A root (pid 100) with two children (200, 300) and one grandchild (400 under 200). -/
def sampleTable : ProcTable := [⟨100, 1⟩, ⟨200, 100⟩, ⟨300, 100⟩, ⟨400, 200⟩]

/-- A root (pid 100) with a single child (200). -/
def pairTable : ProcTable := [⟨100, 1⟩, ⟨200, 100⟩]

/-- Kill attempts on `bad` are refused, all others succeed. -/
def killFailsAt (bad : Int) : Int → Option GoError :=
  fun p => if p = bad then some accessDenied else none

/-- Error value of `cmd.Wait()` for a process that ended with exit status 1. -/
def exitStatus1 : GoError := GoError.text "exit status 1"

/-- A first `Close` on a client whose child has pid 100. -/
def freshClient : StdioMCPClient := { doneClosed := false, pid := 100 }

/-- POSIX, both pipe closes succeed, the child ignores EOF and `SIGTERM`, the signals
are delivered, the wait yields `exit status 1` after the kill. -/
def posixStubborn : CloseEnv where
  goosWindows := false
  stdinClose := none
  stderrClose := none
  waitResult := some exitStatus1
  firstSelectWait := false
  secondSelectWait := false
  posix := posixOfTable [⟨100, 100⟩, ⟨200, 100⟩]
  win := snapshotOS [] (fun _ => none)

/-- POSIX, both pipe closes succeed, the first timer fires, and the child is gone by
the time `SIGTERM` is sent (the wait would have yielded nil). -/
def posixGone : CloseEnv where
  goosWindows := false
  stdinClose := none
  stderrClose := none
  waitResult := none
  firstSelectWait := false
  secondSelectWait := false
  posix := posixOfTable []
  win := snapshotOS [] (fun _ => none)

/-- Windows, both pipe closes succeed, the first timer fires, every kill succeeds,
and the wait yields `exit status 1`. -/
def windowsStubborn : CloseEnv where
  goosWindows := true
  stdinClose := none
  stderrClose := none
  waitResult := some exitStatus1
  firstSelectWait := false
  secondSelectWait := false
  posix := posixOfTable []
  win := snapshotOS sampleTable (fun _ => none)

/-- POSIX, closing stdin succeeds and closing stderr fails with `EBADF`. -/
def stderrCloseFails : CloseEnv where
  goosWindows := false
  stdinClose := none
  stderrClose := some (GoError.os 9)
  waitResult := none
  firstSelectWait := true
  secondSelectWait := false
  posix := posixOfTable [⟨100, 100⟩]
  win := snapshotOS [] (fun _ => none)

/-- POSIX, the child exits on EOF within the first window with a clean exit. -/
def cleanExit : CloseEnv where
  goosWindows := false
  stdinClose := none
  stderrClose := none
  waitResult := none
  firstSelectWait := true
  secondSelectWait := false
  posix := posixOfTable [⟨100, 100⟩]
  win := snapshotOS [] (fun _ => none)

/-- The error of the root's own processing in the tree killer: that of
`process.NewProcess`, else that of `os.FindProcess`, else that of the root's `Kill()`. -/
def ownError (os : WinOS) (pid : Int) : Option GoError :=
  match os.newProcess (int32 pid) with
  | some e => some e
  | none =>
    match os.findProcess pid with
    | some e => some e
    | none => os.kill pid

/-! ## Facts about process tables -/

theorem mem_childrenOf (t : ProcTable) (p c : Int) :
    c ∈ childrenOf t p ↔ IsChild t c p := by
  unfold childrenOf IsChild
  simp only [List.mem_map, List.mem_filter, beq_iff_eq]
  constructor
  · rintro ⟨e, ⟨he, hp⟩, hc⟩
    exact ⟨e, he, hc, hp⟩
  · rintro ⟨e, he, hc, hp⟩
    exact ⟨e, ⟨he, hp⟩, hc⟩

theorem childrenOf_nodup (t : ProcTable) (hU : UniquePids t) (p : Int) :
    (childrenOf t p).Nodup := by
  unfold childrenOf
  exact List.Nodup.sublist (List.Sublist.map _ (List.filter_sublist t)) hU

theorem unique_parent (t : ProcTable) (hU : UniquePids t) {c p q : Int}
    (h1 : IsChild t c p) (h2 : IsChild t c q) : p = q := by
  obtain ⟨e1, he1, hc1, hp1⟩ := h1
  obtain ⟨e2, he2, hc2, hp2⟩ := h2
  have := List.inj_on_of_nodup_map hU he1 he2 (hc1.trans hc2.symm)
  subst this
  exact hp1.symm.trans hp2

theorem inTree_iff_reflTransGen (t : ProcTable) (a x : Int) :
    InTree t a x ↔ Relation.ReflTransGen (fun u v => IsChild t v u) a x := by
  unfold InTree Desc
  rw [Relation.reflTransGen_iff_eq_or_transGen]

theorem desc_iff_child (t : ProcTable) (p x : Int) :
    Desc t p x ↔ ∃ c, IsChild t c p ∧ InTree t c x := by
  unfold Desc
  rw [Relation.TransGen.head'_iff]
  simp only [inTree_iff_reflTransGen]

theorem desc_iff_parent (t : ProcTable) (a x : Int) :
    Desc t a x ↔ ∃ y, InTree t a y ∧ IsChild t x y := by
  unfold Desc
  rw [Relation.TransGen.tail'_iff]
  simp only [inTree_iff_reflTransGen]

theorem Desc.trans {t : ProcTable} {a b c : Int} (h1 : Desc t a b) (h2 : Desc t b c) :
    Desc t a c := Relation.TransGen.trans h1 h2

theorem InTree.desc_of_child {t : ProcTable} {p c x : Int} (hc : IsChild t c p)
    (hx : InTree t c x) : Desc t p x :=
  (desc_iff_child t p x).2 ⟨c, hc, hx⟩

/-- With one row per pid, the ancestors of a process form a chain. -/
theorem ancestors_chain (t : ProcTable) (hU : UniquePids t) {a b x : Int}
    (ha : InTree t a x) (hb : InTree t b x) : InTree t a b ∨ InTree t b a := by
  rw [inTree_iff_reflTransGen] at ha
  induction ha generalizing b with
  | refl => exact Or.inr hb
  | tail hay hyx ih =>
    rename_i y x
    rcases hb with hb | hb
    · subst hb
      left
      rw [inTree_iff_reflTransGen]
      exact Relation.ReflTransGen.tail hay hyx
    · obtain ⟨y2, hby, hxy⟩ := (desc_iff_parent t b x).1 hb
      have : y = y2 := unique_parent t hU hyx hxy
      subst this
      exact ih hby

/-- The subtrees of two different children of one process are disjoint. -/
theorem subtrees_disjoint (t : ProcTable) (hU : UniquePids t) (hA : Acyclic t)
    {p c1 c2 x : Int} (h1 : IsChild t c1 p) (h2 : IsChild t c2 p) (hne : c1 ≠ c2)
    (hx1 : InTree t c1 x) (hx2 : InTree t c2 x) : False := by
  have key : ∀ {u v : Int}, IsChild t u p → IsChild t v p → u ≠ v → InTree t u v → False := by
    intro u v hu hv huv huv2
    rcases huv2 with h | h
    · exact huv h.symm
    · obtain ⟨y, huy, hvy⟩ := (desc_iff_parent t u v).1 h
      have : y = p := unique_parent t hU hvy hv
      subst this
      exact hA y (InTree.desc_of_child hu huy)
  rcases ancestors_chain t hU hx1 hx2 with h | h
  · exact key h1 h2 hne h
  · exact key h2 h1 (Ne.symm hne) h

/-- In a finite table without cycles the child relation is well founded. -/
theorem wf_of_acyclic (t : ProcTable) (hA : Acyclic t) :
    WellFounded (fun c p => IsChild t c p) := by
  let r : Int → Int → Prop := Relation.TransGen (fun c p => IsChild t c p)
  have hr : ∀ a b, r a b ↔ Desc t b a := by
    intro a b
    exact (Relation.transGen_swap).symm
  haveI : IsStrictOrder Int r :=
    { irrefl := fun a h => hA a ((hr a a).1 h)
      trans := fun a b c h1 h2 => Relation.TransGen.trans h1 h2 }
  let s : Set Int := {c | c ∈ t.map (fun e => e.pid)}
  have hs : s.Finite := List.finite_toSet _
  have hwf : s.WellFoundedOn r := hs.wellFoundedOn
  have hacc : ∀ c, c ∈ s → Acc (fun c p => IsChild t c p) c := by
    intro c hc
    refine hwf.induction hc ?_
    intro y _ ih
    constructor
    intro d hd
    have hds : d ∈ s := by
      obtain ⟨e, he, hc, _⟩ := hd
      exact List.mem_map.2 ⟨e, he, hc⟩
    exact ih d hds (Relation.TransGen.single hd)
  constructor
  intro a
  constructor
  intro d hd
  have hds : d ∈ s := by
    obtain ⟨e, he, hc, _⟩ := hd
    exact List.mem_map.2 ⟨e, he, hc⟩
  exact hacc d hds

/-! ## Facts about the tree killer -/

theorem kills_append (a b : List KEvent) : kills (a ++ b) = kills a ++ kills b := by
  induction a with
  | nil => rfl
  | cons e a ih => cases e <;> simp [kills, ih]

theorem killOnWindows_eq_killByPid (fuel : Nat) (os : WinOS) (pid : Int) :
    killOnWindows fuel os pid = killByPid fuel os pid := by
  induction fuel generalizing pid with
  | zero => rfl
  | succ n ih =>
    have h : killOnWindows n os = killByPid n os := funext ih
    simp only [killOnWindows, killByPid, h]

theorem killLoop_congr (f g : Int → Option (Option GoError × List KEvent)) (cs : List Int)
    (h : ∀ c ∈ cs, ∀ r, f c = some r → g c = some r) (tr : List KEvent)
    (hf : killLoop f cs = some tr) : killLoop g cs = some tr := by
  induction cs generalizing tr with
  | nil => simpa [killLoop] using hf
  | cons c rest ih =>
    simp only [killLoop] at hf ⊢
    cases hfc : f c with
    | none => simp [hfc] at hf
    | some r =>
      obtain ⟨err, tr1⟩ := r
      rw [hfc] at hf
      rw [h c (List.mem_cons_self _ _) _ hfc]
      simp only at hf ⊢
      cases hfr : killLoop f rest with
      | none => simp [hfr] at hf
      | some more =>
        rw [hfr] at hf
        rw [ih (fun c hc => h c (List.mem_cons_of_mem _ hc)) more hfr]
        exact hf

theorem killByPid_mono (os : WinOS) (n : Nat) :
    ∀ (p : Int) (r : Option GoError × List KEvent), killByPid n os p = some r →
      ∀ m, n ≤ m → killByPid m os p = some r := by
  induction n with
  | zero => intro p r h; simp [killByPid] at h
  | succ n ih =>
    intro p r h m hm
    obtain ⟨m, rfl⟩ : ∃ k, m = k + 1 := ⟨m - 1, by omega⟩
    have hnm : n ≤ m := by omega
    simp only [killByPid] at h ⊢
    cases hnp : os.newProcess (int32 p) with
    | some e => simpa [hnp] using h
    | none =>
      simp only [hnp] at h ⊢
      cases hch : os.children (int32 p) with
      | error e => simpa [hch] using h
      | ok cs =>
        simp only [hch] at h ⊢
        cases hl : killLoop (killByPid n os) cs with
        | none => simp [hl] at h
        | some tr =>
          rw [hl] at h
          rw [killLoop_congr _ (killByPid m os) cs (fun c _ r hr => ih c r hr m hnm) tr hl]
          exact h

theorem killSelf_split (os : WinOS) (p : Int) (tr : List KEvent) :
    (killSelf os p tr).1 = (killSelf os p []).1 ∧
    kills (killSelf os p tr).2 = kills tr ++ kills (killSelf os p []).2 := by
  unfold killSelf
  cases os.findProcess p with
  | some e => simp [kills]
  | none => cases os.kill p <;> simp [kills_append, kills]

theorem killSelf_nil (os : WinOS) (p : Int) :
    (os.findProcess p = none →
      (killSelf os p []).1 = os.kill p ∧ kills (killSelf os p []).2 = [p]) ∧
    (os.findProcess p ≠ none → kills (killSelf os p []).2 = []) := by
  unfold killSelf
  cases os.findProcess p with
  | some e => simp [kills]
  | none => cases os.kill p <;> simp [kills]

/-- The walk of the children loop, extended by the tail of the tree killer, is a walk
below `p`. -/
theorem walk_self (t : ProcTable) (os : WinOS) (hA : Acyclic t) (p : Int) (ks0 : List Int)
    (h1 : ks0.Nodup) (h2 : ∀ x ∈ ks0, Desc t p x)
    (h3 : ks0.Pairwise (fun a b => ¬ Desc t a b))
    (h4 : (∀ x, InTree t p x → LookupOk os t x) → ∀ x, Desc t p x → x ∈ ks0) :
    Walk t os p (killSelf os p []).1 (ks0 ++ kills (killSelf os p []).2) := by
  have hp0 : p ∉ ks0 := fun hp => hA p (h2 p hp)
  by_cases hf : os.findProcess p = none
  · obtain ⟨hres, hk⟩ := (killSelf_nil os p).1 hf
    rw [hres, hk]
    refine ⟨?_, ?_, ?_, fun _ => ⟨ks0, rfl⟩, fun hok => ⟨rfl, ?_, ks0, rfl⟩⟩
    · refine List.nodup_append.2 ⟨h1, List.nodup_singleton p, ?_⟩
      intro x hx hx2
      rw [List.mem_singleton] at hx2
      subst hx2
      exact hp0 hx
    · intro x hx
      rcases List.mem_append.1 hx with hx | hx
      · exact Or.inr (h2 x hx)
      · exact Or.inl (List.mem_singleton.1 hx)
    · refine List.pairwise_append.2 ⟨h3, List.pairwise_singleton _ _, ?_⟩
      intro a ha b hb hab
      rw [List.mem_singleton] at hb
      subst hb
      exact hA b ((h2 a ha).trans hab)
    · intro x hx
      rcases hx with rfl | hx
      · simp
      · exact List.mem_append_left _ (h4 hok x hx)
  · have hk := (killSelf_nil os p).2 hf
    rw [hk, List.append_nil]
    refine ⟨h1, fun x hx => Or.inr (h2 x hx), h3, fun hp => absurd hp hp0, fun hok => ?_⟩
    exact absurd (hok p (Or.inl rfl)).2.2 hf

theorem killLoop_walk (t : ProcTable) (os : WinOS) (hU : UniquePids t) (hA : Acyclic t)
    (p : Int) (cs : List Int) (hcs : cs.Nodup) (hch : ∀ c ∈ cs, IsChild t c p)
    (ih : ∀ c ∈ cs, ∃ n res ks, Walk t os c res ks ∧ ∀ fuel, n ≤ fuel →
      ∃ tr, killByPid fuel os c = some (res, tr) ∧ kills tr = ks) :
    ∃ n ks, ks.Nodup ∧ (∀ x ∈ ks, ∃ c ∈ cs, InTree t c x) ∧
      ks.Pairwise (fun a b => ¬ Desc t a b) ∧
      ((∀ c ∈ cs, ∀ x, InTree t c x → LookupOk os t x) →
        ∀ c ∈ cs, ∀ x, InTree t c x → x ∈ ks) ∧
      ∀ fuel, n ≤ fuel → ∃ tr, killLoop (killByPid fuel os) cs = some tr ∧ kills tr = ks := by
  induction cs with
  | nil =>
    refine ⟨0, [], List.nodup_nil, ?_, List.Pairwise.nil, ?_, ?_⟩
    · intro x hx; simp at hx
    · intro _ c hc; simp at hc
    · intro fuel _; exact ⟨[], rfl, rfl⟩
  | cons c rest ihr =>
    obtain ⟨n1, res1, k1, ⟨hn1, hm1, hp1, _, hfull1⟩, hrun1⟩ := ih c (List.mem_cons_self _ _)
    obtain ⟨n2, k2, hn2, hm2, hp2, hfull2, hrun2⟩ :=
      ihr (List.nodup_cons.1 hcs).2 (fun c hc => hch c (List.mem_cons_of_mem _ hc))
        (fun c hc => ih c (List.mem_cons_of_mem _ hc))
    have hcp : IsChild t c p := hch c (List.mem_cons_self _ _)
    have hsep : ∀ a ∈ k1, ∀ b ∈ k2, ¬ InTree t a b := by
      intro a ha b hb hab
      obtain ⟨c2, hc2, hb2⟩ := hm2 b hb
      have hne : c ≠ c2 := by
        rintro rfl
        exact (List.nodup_cons.1 hcs).1 hc2
      have hcb : InTree t c b := by
        rcases hm1 a ha with h | h
        · subst h; exact hab
        · rcases hab with h2 | h2
          · subst h2; exact Or.inr h
          · exact Or.inr (h.trans h2)
      exact subtrees_disjoint t hU hA hcp (hch c2 (List.mem_cons_of_mem _ hc2)) hne hcb hb2
    refine ⟨max n1 n2, k1 ++ k2, ?_, ?_, ?_, ?_, ?_⟩
    · refine List.nodup_append.2 ⟨hn1, hn2, ?_⟩
      intro x hx1 hx2
      exact hsep x hx1 x hx2 (Or.inl rfl)
    · intro x hx
      rcases List.mem_append.1 hx with hx | hx
      · exact ⟨c, List.mem_cons_self _ _, hm1 x hx⟩
      · obtain ⟨c2, hc2, hx2⟩ := hm2 x hx
        exact ⟨c2, List.mem_cons_of_mem _ hc2, hx2⟩
    · refine List.pairwise_append.2 ⟨hp1, hp2, ?_⟩
      intro a ha b hb hab
      exact hsep a ha b hb (Or.inr hab)
    · intro hok c2 hc2 x hx
      rcases List.mem_cons.1 hc2 with rfl | hc2
      · exact List.mem_append_left _
          ((hfull1 (fun y hy => hok c2 (List.mem_cons_self _ _) y hy)).2.1 x hx)
      · exact List.mem_append_right _
          (hfull2 (fun c3 hc3 y hy => hok c3 (List.mem_cons_of_mem _ hc3) y hy) c2 hc2 x hx)
    · intro fuel hfuel
      obtain ⟨tr1, h1, hk1⟩ := hrun1 fuel (le_trans (le_max_left _ _) hfuel)
      obtain ⟨tr2, h2, hk2⟩ := hrun2 fuel (le_trans (le_max_right _ _) hfuel)
      cases res1 with
      | none =>
        exact ⟨tr1 ++ [] ++ tr2, by simp only [killLoop, h1, h2],
          by simp [kills_append, hk1, hk2, kills]⟩
      | some e =>
        exact ⟨tr1 ++ [KEvent.log c e] ++ tr2, by simp only [killLoop, h1, h2],
          by simp [kills_append, hk1, hk2, kills]⟩

/-- When the table has one row per pid and no cycle and `Children()`, where it
succeeds, enumerates the table's children, enough fuel makes `killByPid` return after
a children-first walk below `root`; the walk is complete when all lookups succeed. -/
theorem killByPid_walk (t : ProcTable) (os : WinOS) (hU : UniquePids t)
    (hA : Acyclic t) (root : Int) (hag : ∀ x, InTree t root x → ChildrenAgree os t x) :
    ∃ n res ks, Walk t os root res ks ∧ ∀ fuel, n ≤ fuel →
      ∃ tr, killByPid fuel os root = some (res, tr) ∧ kills tr = ks := by
  revert hag
  induction root using (wf_of_acyclic t hA).induction with
  | _ p ih =>
  intro hag
  cases hnew : os.newProcess (int32 p) with
  | some e =>
    refine ⟨1, some e, [], ⟨List.nodup_nil, ?_, List.Pairwise.nil, ?_, ?_⟩, ?_⟩
    · intro x hx; simp at hx
    · intro hp; simp at hp
    · intro hok
      have := (hok p (Or.inl rfl)).1
      rw [hnew] at this
      cases this
    · intro fuel hfuel
      obtain ⟨f, rfl⟩ : ∃ k, fuel = k + 1 := ⟨fuel - 1, by omega⟩
      exact ⟨[], by simp [killByPid, hnew], rfl⟩
  | none =>
    cases hchildren : os.children (int32 p) with
    | error e =>
      have hw := walk_self t os hA p [] List.nodup_nil (fun x hx => by simp at hx)
        List.Pairwise.nil (fun hok => by
          have := (hok p (Or.inl rfl)).2.1
          rw [hchildren] at this
          cases this)
      refine ⟨1, _, _, hw, ?_⟩
      intro fuel hfuel
      obtain ⟨f, rfl⟩ : ∃ k, fuel = k + 1 := ⟨fuel - 1, by omega⟩
      exact ⟨(killSelf os p []).2, by simp [killByPid, hnew, hchildren], by simp⟩
    | ok cs =>
      have hcs : cs = childrenOf t p := hag p (Or.inl rfl) cs hchildren
      subst hcs
      obtain ⟨n, ks, hn, hm, hp, hfull, hrun⟩ :=
        killLoop_walk t os hU hA p (childrenOf t p) (childrenOf_nodup t hU p)
          (fun c hc => (mem_childrenOf t p c).1 hc)
          (fun c hc => ih c ((mem_childrenOf t p c).1 hc)
            (fun x hx => hag x
              (Or.inr (InTree.desc_of_child ((mem_childrenOf t p c).1 hc) hx))))
      have hdesc : ∀ x ∈ ks, Desc t p x := by
        intro x hx
        obtain ⟨c, hc, hcx⟩ := hm x hx
        exact InTree.desc_of_child ((mem_childrenOf t p c).1 hc) hcx
      have hw := walk_self t os hA p ks hn hdesc hp (fun hok x hx => by
        obtain ⟨c, hc, hcx⟩ := (desc_iff_child t p x).1 hx
        exact hfull (fun c2 hc2 y hy => hok y
          (Or.inr (InTree.desc_of_child ((mem_childrenOf t p c2).1 hc2) hy)))
          c ((mem_childrenOf t p c).2 hc) x hcx)
      refine ⟨n + 1, _, _, hw, ?_⟩
      intro fuel hfuel
      obtain ⟨f, rfl⟩ : ∃ k, fuel = k + 1 := ⟨fuel - 1, by omega⟩
      obtain ⟨tr, hl, hk⟩ := hrun f (by omega)
      obtain ⟨hres, hkills⟩ := killSelf_split os p tr
      refine ⟨(killSelf os p tr).2, ?_, by rw [hkills, hk]⟩
      simp only [killByPid, hnew, hchildren, hl]
      rw [← hres]

theorem childrenAgree_of_lookupOk (t : ProcTable) (os : WinOS) (x : Int)
    (h : LookupOk os t x) : ChildrenAgree os t x := by
  intro cs hcs
  rw [h.2.1] at hcs
  cases hcs
  rfl

/-! ## The shutdown sequence -/

/-- C1, as stated, fails. On POSIX, when the child is gone by the time `SIGTERM` is
sent, `Close` returns the wrapped signal error although both pipe closes succeeded
and the wait produced nil; on Windows, after the first timeout, `Close` returns the
tree killer's result (nil) although the wait produced `exit status 1`. -/
theorem close_result_differs_from_wait :
    (posixGone.stdinClose = none ∧ posixGone.stderrClose = none ∧
      posixGone.waitResult = none ∧
      (StdioMCPClient.Close 0 posixGone freshClient).outcome =
        some (.returned (some (.wrapf "failed to send SIGTERM: %w" ESRCH)))) ∧
    (windowsStubborn.stdinClose = none ∧ windowsStubborn.stderrClose = none ∧
      windowsStubborn.waitResult = some exitStatus1 ∧
      (StdioMCPClient.Close 4 windowsStubborn freshClient).outcome = some (.returned none)) := by
  decide

/-- C1, amended. On a first `Close` whose two pipe closes succeed: when the wait
finishes in the first window (any platform), or, on POSIX, `SIGTERM` is sent without
error and the wait finishes in the second window or the `SIGKILL` is sent without
error, `Close` returns exactly the value of `cmd.Wait()`. On POSIX a signal that
cannot be sent makes `Close` return that failure, wrapped, instead. -/
theorem close_returns_wait_result (fuel : Nat) (env : CloseEnv) (c : StdioMCPClient)
    (hfirst : c.doneClosed = false) (hin : env.stdinClose = none)
    (herr : env.stderrClose = none) :
    (env.firstSelectWait = true →
      (StdioMCPClient.Close fuel env c).outcome = some (.returned env.waitResult)) ∧
    (env.firstSelectWait = false → env.goosWindows = false →
      env.posix.kill c.pid Signal.SIGTERM = none →
      (env.secondSelectWait = true ∨ env.posix.kill c.pid Signal.SIGKILL = none) →
      (StdioMCPClient.Close fuel env c).outcome = some (.returned env.waitResult)) ∧
    (∀ e, env.firstSelectWait = false → env.goosWindows = false →
      env.posix.kill c.pid Signal.SIGTERM = some e →
      (StdioMCPClient.Close fuel env c).outcome =
        some (.returned (some (.wrapf "failed to send SIGTERM: %w" e)))) ∧
    (∀ e, env.firstSelectWait = false → env.goosWindows = false →
      env.posix.kill c.pid Signal.SIGTERM = none → env.secondSelectWait = false →
      env.posix.kill c.pid Signal.SIGKILL = some e →
      (StdioMCPClient.Close fuel env c).outcome =
        some (.returned (some (.wrapf "failed to send SIGKILL: %w" e)))) := by
  refine ⟨?_, ?_, ?_, ?_⟩
  · intro h1
    simp [StdioMCPClient.Close, hfirst, hin, herr, h1]
  · intro h1 hw ht h2
    rcases h2 with h2 | h2
    · simp [StdioMCPClient.Close, hfirst, hin, herr, h1, hw, ht, h2]
    · cases hs : env.secondSelectWait <;> simp [StdioMCPClient.Close, hfirst, hin, herr, h1, hw, ht, h2, hs]
  · intro e h1 hw ht
    simp [StdioMCPClient.Close, hfirst, hin, herr, h1, hw, ht]
  · intro e h1 hw ht h2 hk
    simp [StdioMCPClient.Close, hfirst, hin, herr, h1, hw, ht, h2, hk]

/-- The amended C1 at a concrete run: POSIX, the child ignores EOF and `SIGTERM`, both
signals are delivered, and `Close` returns the wait's `exit status 1`. -/
theorem close_returns_wait_result_witness :
    freshClient.doneClosed = false ∧ posixStubborn.stdinClose = none ∧
    posixStubborn.stderrClose = none ∧ posixStubborn.firstSelectWait = false ∧
    posixStubborn.goosWindows = false ∧
    posixStubborn.posix.kill freshClient.pid Signal.SIGTERM = none ∧
    posixStubborn.posix.kill freshClient.pid Signal.SIGKILL = none ∧
    (StdioMCPClient.Close 0 posixStubborn freshClient).outcome = some (.returned (some exitStatus1)) :=
  ⟨rfl, rfl, rfl, rfl, rfl, by decide, by decide,
    (close_returns_wait_result 0 posixStubborn freshClient rfl rfl rfl).2.1 rfl rfl
      (by decide) (Or.inr (by decide))⟩

/-- C2, as stated, fails. With stdin closed successfully and the stderr close
failing, `Close` returns right after the failed close: the wait is never started. -/
theorem stderr_failure_aborts_close :
    stderrCloseFails.stdinClose = none ∧
    stderrCloseFails.stderrClose = some (GoError.os 9) ∧
    (StdioMCPClient.Close 0 stderrCloseFails freshClient).trace =
      [Event.closeDone, Event.closeStdin, Event.closeStderr] ∧
    Event.spawnWait ∉ (StdioMCPClient.Close 0 stderrCloseFails freshClient).trace ∧
    (StdioMCPClient.Close 0 stderrCloseFails freshClient).outcome =
      some (.returned (some (.wrapf "failed to close stderr: %w" (GoError.os 9)))) := by
  decide

/-- C2, amended. On a first `Close` in which closing stdin succeeds and closing stderr
fails with `e`, `Close` returns `failed to close stderr: e` at once: it performs the
three closes and nothing else (no wait, no timer, no signal, no kill). -/
theorem close_stops_on_stderr_failure (fuel : Nat) (env : CloseEnv) (c : StdioMCPClient)
    (e : GoError) (hfirst : c.doneClosed = false) (hin : env.stdinClose = none)
    (herr : env.stderrClose = some e) :
    (StdioMCPClient.Close fuel env c).trace = [Event.closeDone, Event.closeStdin, Event.closeStderr] ∧
    (StdioMCPClient.Close fuel env c).outcome =
      some (.returned (some (.wrapf "failed to close stderr: %w" e))) := by
  simp [StdioMCPClient.Close, hfirst, hin, herr]

/-- The amended C2 at a concrete run whose stderr close fails with `EBADF`. -/
theorem close_stops_on_stderr_failure_witness :
    freshClient.doneClosed = false ∧ stderrCloseFails.stdinClose = none ∧
    stderrCloseFails.stderrClose = some (GoError.os 9) ∧
    (StdioMCPClient.Close 3 stderrCloseFails freshClient).trace =
      [Event.closeDone, Event.closeStdin, Event.closeStderr] ∧
    (StdioMCPClient.Close 3 stderrCloseFails freshClient).outcome =
      some (.returned (some (.wrapf "failed to close stderr: %w" (GoError.os 9)))) :=
  ⟨rfl, rfl, rfl,
    close_stops_on_stderr_failure 3 stderrCloseFails freshClient (GoError.os 9) rfl rfl rfl⟩

/-- C5, as stated, fails. A second `Close` on the client left by a first `Close`
panics. -/
theorem double_close_example :
    (StdioMCPClient.Close 0 cleanExit (StdioMCPClient.Close 0 cleanExit freshClient).client).outcome =
      some (.panicked "close of closed channel") := by
  decide

/-- C5, amended. Whatever the first `Close` did, a second `Close` on the same client
panics at `close(c.done)` before any other step: it closes no pipe, starts no wait
and sends no signal or kill, and it does not return. -/
theorem second_close_panics (fuel1 fuel2 : Nat) (env1 env2 : CloseEnv)
    (c : StdioMCPClient) :
    (StdioMCPClient.Close fuel2 env2 (StdioMCPClient.Close fuel1 env1 c).client).trace = [] ∧
    (StdioMCPClient.Close fuel2 env2 (StdioMCPClient.Close fuel1 env1 c).client).outcome =
      some (.panicked "close of closed channel") := by
  have h : (StdioMCPClient.Close fuel1 env1 c).client.doneClosed = true := by
    unfold StdioMCPClient.Close
    split
    · assumption
    · simp only
      repeat' split
      all_goals rfl
  generalize (StdioMCPClient.Close fuel1 env1 c).client = c2 at h ⊢
  simp [StdioMCPClient.Close, h]

theorem forall_split_nil {α : Type} (P : List α → α → Prop) :
    (∀ pre e post, ([] : List α) = pre ++ e :: post → P pre e) ↔ True := by
  simp

theorem forall_split_cons {α : Type} (P : List α → α → Prop) (a : α) (l : List α) :
    (∀ pre e post, a :: l = pre ++ e :: post → P pre e) ↔
      P [] a ∧ ∀ pre e post, l = pre ++ e :: post → P (a :: pre) e := by
  constructor
  · intro h
    exact ⟨h [] a l rfl, fun pre e post hl => h (a :: pre) e post (by rw [hl]; rfl)⟩
  · rintro ⟨h0, h1⟩ pre e post h
    rcases List.cons_eq_append_iff.1 h with ⟨rfl, h2⟩ | ⟨pre2, rfl, h2⟩
    · cases h2
      exact h0
    · exact h1 pre2 e post h2

/-- C3. In every run of `Close`, a `SIGTERM` or a kill comes after the successful
closes of stdin and stderr and after the expiry of the 3 s timer, and no receive from
the wait has happened before it; on POSIX a kill comes after the `SIGTERM` and the
expiry of the 1 s timer, in that order; a kill that follows the 3 s timer directly
happens on Windows only; and when the wait finishes in the first window the run has
no signal and no kill. -/
theorem close_signal_ordering (fuel : Nat) (env : CloseEnv) (c : StdioMCPClient) :
    (∀ pre e post, (StdioMCPClient.Close fuel env c).trace = pre ++ e :: post →
      (e.isSignalOrKill = true →
        List.Sublist [Event.closeStdin, Event.closeStderr, Event.timer3s] pre ∧
        env.stdinClose = none ∧ env.stderrClose = none ∧
        Event.recvWait ∉ pre ∧
        (e.isKill = true → env.goosWindows = false →
          List.Sublist [Event.closeStdin, Event.closeStderr, Event.timer3s,
            Event.signal c.pid Signal.SIGTERM, Event.timer1s] pre) ∧
        (e.isKill = true → pre.getLast? = some Event.timer3s →
          env.goosWindows = true))) ∧
    (env.firstSelectWait = true →
      ∀ e ∈ (StdioMCPClient.Close fuel env c).trace, e.isSignalOrKill = false) := by
  constructor
  · unfold StdioMCPClient.Close
    split
    · simp
    · simp only
      split
      · simp only [forall_split_cons, forall_split_nil]
        simp [Event.isSignalOrKill, Event.isTerm, Event.isKill]
      · split
        · simp only [forall_split_cons, forall_split_nil]
          simp [Event.isSignalOrKill, Event.isTerm, Event.isKill]
        · rename_i hin _ herr
          split
          · simp only [forall_split_cons, forall_split_nil]
            simp [Event.isSignalOrKill, Event.isTerm, Event.isKill]
          · split
            · rename_i hw
              split
              · simp only [forall_split_cons, forall_split_nil]
                simp [Event.isSignalOrKill, Event.isTerm, Event.isKill]
              · rename_i err tr htr
                simp only [List.cons_append, List.nil_append, forall_split_cons]
                refine ⟨by simp [Event.isSignalOrKill, Event.isTerm, Event.isKill],
                  by simp [Event.isSignalOrKill, Event.isTerm, Event.isKill],
                  by simp [Event.isSignalOrKill, Event.isTerm, Event.isKill],
                  by simp [Event.isSignalOrKill, Event.isTerm, Event.isKill],
                  by simp [Event.isSignalOrKill, Event.isTerm, Event.isKill], ?_⟩
                intro pre e post h _
                obtain ⟨l1, l2, _, rfl, _⟩ := List.map_eq_append_iff.1 h
                refine ⟨?_, hin, herr, ?_, ?_, ?_⟩
                · refine List.Sublist.cons _ (List.Sublist.cons₂ _ (List.Sublist.cons₂ _
                    (List.Sublist.cons _ (List.Sublist.cons₂ _ (List.nil_sublist _)))))
                · simp
                · intro _ hposix
                  rw [hw] at hposix
                  cases hposix
                · intro _ _
                  exact hw
            · rename_i hw
              have hw2 : env.goosWindows = false := by simpa using hw
              split
              · simp only [forall_split_cons, forall_split_nil]
                simp [Event.isSignalOrKill, Event.isTerm, Event.isKill, hin, herr]
              · split
                · simp only [forall_split_cons, forall_split_nil]
                  simp [Event.isSignalOrKill, Event.isTerm, Event.isKill, hin, herr]
                · split
                  · simp only [forall_split_cons, forall_split_nil]
                    simp [Event.isSignalOrKill, Event.isTerm, Event.isKill, hin, herr]
                  · simp only [forall_split_cons, forall_split_nil]
                    simp [Event.isSignalOrKill, Event.isTerm, Event.isKill, hin, herr]
  · intro h1
    unfold StdioMCPClient.Close
    split
    · simp
    · simp only
      split
      · simp [Event.isSignalOrKill, Event.isTerm, Event.isKill]
      · split
        · simp [Event.isSignalOrKill, Event.isTerm, Event.isKill]
        · simp [h1, Event.isSignalOrKill, Event.isTerm, Event.isKill]

/-- C3 at a concrete run: POSIX, the child ignores EOF and `SIGTERM`; the `SIGKILL`
stands after the closes, both timers and the `SIGTERM`. -/
theorem close_signal_ordering_witness :
    (StdioMCPClient.Close 0 posixStubborn freshClient).trace =
      [Event.closeDone, Event.closeStdin, Event.closeStderr, Event.spawnWait,
        Event.timer3s, Event.signal 100 Signal.SIGTERM, Event.timer1s] ++
        Event.signal 100 Signal.SIGKILL :: [Event.recvWait] ∧
    (Event.signal 100 Signal.SIGKILL).isSignalOrKill = true ∧
    (Event.signal 100 Signal.SIGKILL).isKill = true ∧
    posixStubborn.goosWindows = false ∧
    List.Sublist [Event.closeStdin, Event.closeStderr, Event.timer3s,
        Event.signal freshClient.pid Signal.SIGTERM, Event.timer1s]
      [Event.closeDone, Event.closeStdin, Event.closeStderr, Event.spawnWait,
        Event.timer3s, Event.signal 100 Signal.SIGTERM, Event.timer1s] :=
  ⟨by decide, rfl, rfl, rfl,
    ((close_signal_ordering 0 posixStubborn freshClient).1
      [Event.closeDone, Event.closeStdin, Event.closeStderr, Event.spawnWait,
        Event.timer3s, Event.signal 100 Signal.SIGTERM, Event.timer1s]
      (Event.signal 100 Signal.SIGKILL) [Event.recvWait] (by decide) rfl).2.2.2.2.1
      rfl rfl⟩

/-- C4, as stated, fails. On POSIX the forceful step is one `SIGKILL` addressed to
the child's own pid 100: nothing is addressed to the group (`-100`) and no tree
walk runs, although pid 200 belongs to the child's group. On Windows the tree killer
runs, and `Close` returns its result without ever receiving from the wait. -/
theorem forceful_step_not_tree_and_wait :
    ((StdioMCPClient.Close 0 posixStubborn freshClient).trace =
        [Event.closeDone, Event.closeStdin, Event.closeStderr, Event.spawnWait,
          Event.timer3s, Event.signal 100 Signal.SIGTERM, Event.timer1s,
          Event.signal 100 Signal.SIGKILL, Event.recvWait] ∧
      Event.signal (-100) Signal.SIGKILL ∉ (StdioMCPClient.Close 0 posixStubborn freshClient).trace) ∧
    ((StdioMCPClient.Close 4 windowsStubborn freshClient).trace =
        [Event.closeDone, Event.closeStdin, Event.closeStderr, Event.spawnWait,
          Event.timer3s, Event.tree (KEvent.kill 400), Event.tree (KEvent.kill 200),
          Event.tree (KEvent.kill 300), Event.tree (KEvent.kill 100)] ∧
      Event.recvWait ∉ (StdioMCPClient.Close 4 windowsStubborn freshClient).trace ∧
      windowsStubborn.waitResult = some exitStatus1 ∧
      (StdioMCPClient.Close 4 windowsStubborn freshClient).outcome = some (.returned none)) := by
  decide

/-- C4, amended. When a first `Close` reaches its forceful step: on Windows (right
after the first timeout) it runs the recursive tree killer `killOnWindows` on the
child's pid, and its steps from there on are exactly that killer's actions; on POSIX
(after the second timeout) it sends one `SIGKILL` to the child's own pid, not to its
group, and when that signal is sent without error it then receives the result of the
original wait and returns it. -/
theorem close_forceful_step (fuel : Nat) (env : CloseEnv) (c : StdioMCPClient)
    (hfirst : c.doneClosed = false) (hin : env.stdinClose = none)
    (herr : env.stderrClose = none) (htimeout : env.firstSelectWait = false) :
    (env.goosWindows = true →
      ∀ r tr, killOnWindows fuel env.win c.pid = some (r, tr) →
        (StdioMCPClient.Close fuel env c).trace =
          [Event.closeDone, Event.closeStdin, Event.closeStderr, Event.spawnWait,
            Event.timer3s] ++ tr.map Event.tree) ∧
    (env.goosWindows = false → env.posix.kill c.pid Signal.SIGTERM = none →
      env.secondSelectWait = false →
      (∃ rest, (StdioMCPClient.Close fuel env c).trace =
          [Event.closeDone, Event.closeStdin, Event.closeStderr, Event.spawnWait,
            Event.timer3s, Event.signal c.pid Signal.SIGTERM, Event.timer1s,
            Event.signal c.pid Signal.SIGKILL] ++ rest ∧
        (rest = [] ∨ rest = [Event.recvWait])) ∧
      (env.posix.kill c.pid Signal.SIGKILL = none →
        (StdioMCPClient.Close fuel env c).trace =
          [Event.closeDone, Event.closeStdin, Event.closeStderr, Event.spawnWait,
            Event.timer3s, Event.signal c.pid Signal.SIGTERM, Event.timer1s,
            Event.signal c.pid Signal.SIGKILL, Event.recvWait] ∧
        (StdioMCPClient.Close fuel env c).outcome = some (.returned env.waitResult))) := by
  refine ⟨?_, ?_⟩
  · intro hw r tr hk
    simp [StdioMCPClient.Close, hfirst, hin, herr, htimeout, hw, hk]
  · intro hw ht h2
    cases hk : env.posix.kill c.pid Signal.SIGKILL <;>
      simp [StdioMCPClient.Close, hfirst, hin, herr, htimeout, hw, ht, h2, hk]

/-- The amended C4 at two concrete runs, one on Windows and one on POSIX. -/
theorem close_forceful_step_witness :
    (freshClient.doneClosed = false ∧ windowsStubborn.stdinClose = none ∧
      windowsStubborn.stderrClose = none ∧ windowsStubborn.firstSelectWait = false ∧
      windowsStubborn.goosWindows = true ∧
      killOnWindows 4 windowsStubborn.win freshClient.pid =
        some (none, [KEvent.kill 400, KEvent.kill 200, KEvent.kill 300, KEvent.kill 100]) ∧
      (StdioMCPClient.Close 4 windowsStubborn freshClient).trace =
        [Event.closeDone, Event.closeStdin, Event.closeStderr, Event.spawnWait,
          Event.timer3s] ++
          [KEvent.kill 400, KEvent.kill 200, KEvent.kill 300, KEvent.kill 100].map
            Event.tree) ∧
    (posixStubborn.goosWindows = false ∧
      posixStubborn.posix.kill freshClient.pid Signal.SIGTERM = none ∧
      posixStubborn.secondSelectWait = false ∧
      posixStubborn.posix.kill freshClient.pid Signal.SIGKILL = none ∧
      (StdioMCPClient.Close 0 posixStubborn freshClient).outcome =
        some (.returned posixStubborn.waitResult)) :=
  ⟨⟨rfl, rfl, rfl, rfl, rfl, by decide,
      (close_forceful_step 4 windowsStubborn freshClient rfl rfl rfl rfl).1 rfl none
        [KEvent.kill 400, KEvent.kill 200, KEvent.kill 300, KEvent.kill 100]
        (by decide)⟩,
    ⟨rfl, by decide, rfl, by decide,
      (((close_forceful_step 0 posixStubborn freshClient rfl rfl rfl rfl).2 rfl
        (by decide) rfl).2 (by decide)).2⟩⟩

/-! ## Capability narrowing -/

/-- C10. `GetStderr` returns the transport's `Stderr()` reader when the client's
transport is the Stdio variant; for every other transport (the in-process one, any
other implementation, the nil interface) it panics and returns no reader; in
particular it panics on the client built by `NewInProcessClient`. -/
theorem getStderr_narrowing :
    (∀ (c : Client) (s : Stdio), c.GetTransport = Transport.stdio s →
      GetStderr c = Outcome.returned s.Stderr) ∧
    (∀ (c : Client), (∀ s, c.GetTransport ≠ Transport.stdio s) →
      (∃ msg, GetStderr c = Outcome.panicked msg) ∧
      ∀ r, GetStderr c ≠ Outcome.returned r) ∧
    (∀ (server : MCPServer),
      (NewInProcessClient server).2 = none ∧
      (∃ msg, GetStderr (NewInProcessClient server).1 = Outcome.panicked msg) ∧
      ∀ r, GetStderr (NewInProcessClient server).1 ≠ Outcome.returned r) := by
  refine ⟨?_, ?_, ?_⟩
  · intro c s h
    simp [GetStderr, h]
  · intro c h
    unfold GetStderr
    cases ht : c.GetTransport with
    | stdio s => exact absurd ht (h s)
    | inProcess t => exact ⟨⟨_, rfl⟩, fun r hr => by cases hr⟩
    | other name => exact ⟨⟨_, rfl⟩, fun r hr => by cases hr⟩
    | nil => exact ⟨⟨_, rfl⟩, fun r hr => by cases hr⟩
  · intro server
    exact ⟨rfl, ⟨_, rfl⟩, fun r hr => by cases hr⟩

/-- C10 at concrete clients: a Stdio client yields its reader, the in-process client
panics. -/
theorem getStderr_narrowing_witness :
    GetStderr (NewClient (Transport.stdio { stderr := { handle := 2 } })) =
      Outcome.returned { handle := 2 } ∧
    (∃ msg, GetStderr (NewClient (Transport.inProcess
        (NewInProcessTransport { handle := 7 }))) = Outcome.panicked msg) :=
  ⟨getStderr_narrowing.1 _ _ rfl,
    (getStderr_narrowing.2.1 (NewClient (Transport.inProcess
        (NewInProcessTransport { handle := 7 }))) (fun s h => by cases h)).1⟩

/-! ## The tree killer on a process table -/

theorem desc_rank_lt (t : ProcTable) (rank : Int → Nat)
    (h : ∀ e ∈ t, rank e.pid < rank e.ppid) {a d : Int} (hd : Desc t a d) :
    rank d < rank a := by
  induction hd with
  | single hc =>
    obtain ⟨e, he, rfl, rfl⟩ := hc
    exact h e he
  | tail _ hc ih =>
    obtain ⟨e, he, rfl, rfl⟩ := hc
    exact lt_trans (h e he) ih

/-- A table whose rows all go from a lower rank (child) to a higher rank (parent)
has no cycle. -/
theorem acyclic_of_rank (t : ProcTable) (rank : Int → Nat)
    (h : ∀ e ∈ t, rank e.pid < rank e.ppid) : Acyclic t :=
  fun _ hp => lt_irrefl _ (desc_rank_lt t rank h hp)

theorem desc_mem (t : ProcTable) {a d : Int} (hd : Desc t a d) :
    d ∈ t.map (fun e => e.pid) := by
  obtain ⟨y, _, e, he, hpid, _⟩ := (desc_iff_parent t a d).1 hd
  exact List.mem_map.2 ⟨e, he, hpid⟩

theorem lookupOk_snapshotOS (t : ProcTable) (killErr : Int → Option GoError)
    (h32 : ∀ e ∈ t, int32 e.pid = e.pid) {x : Int} (hx : x ∈ t.map (fun e => e.pid)) :
    LookupOk (snapshotOS t killErr) t x := by
  obtain ⟨e, he, rfl⟩ := List.mem_map.1 hx
  have hany : t.any (fun e2 => e2.pid == e.pid) = true :=
    List.any_eq_true.2 ⟨e, he, by simp⟩
  unfold LookupOk snapshotOS
  simp only [h32 e he, hany, if_true, and_self]

theorem lookupOk_snapshotOS_tree (t : ProcTable) (killErr : Int → Option GoError)
    (h32 : ∀ e ∈ t, int32 e.pid = e.pid) (root : Int)
    (hroot : root ∈ t.map (fun e => e.pid)) (x : Int) (hx : InTree t root x) :
    LookupOk (snapshotOS t killErr) t x := by
  rcases hx with rfl | hx
  · exact lookupOk_snapshotOS t killErr h32 hroot
  · exact lookupOk_snapshotOS t killErr h32 (desc_mem t hx)

theorem ownError_eq (fuel : Nat) (os : WinOS) (pid : Int) (res : Option GoError)
    (tr : List KEvent) (h : killByPid fuel os pid = some (res, tr)) :
    res = ownError os pid := by
  cases fuel with
  | zero => simp [killByPid] at h
  | succ n =>
    have hself : ∀ sofar, (killSelf os pid sofar).1 =
        (match os.findProcess pid with
          | some e => some e
          | none => os.kill pid) := by
      intro sofar
      unfold killSelf
      cases os.findProcess pid with
      | some e => rfl
      | none => cases os.kill pid <;> rfl
    simp only [killByPid] at h
    unfold ownError
    cases hnp : os.newProcess (int32 pid) with
    | some e =>
      rw [hnp] at h
      simp only [Option.some.injEq, Prod.mk.injEq] at h
      exact h.1.symm
    | none =>
      simp only [hnp] at h ⊢
      rw [← hself []]
      cases hch : os.children (int32 pid) with
      | error e =>
        simp only [hch, Option.some.injEq] at h
        rw [h]
      | ok cs =>
        simp only [hch] at h
        cases hl : killLoop (killByPid n os) cs with
        | none => simp [hl] at h
        | some tr2 =>
          simp only [hl, Option.some.injEq] at h
          rw [hself [], ← hself tr2, h]

/-- C6. On a finite process table with one row per pid and no cycle, in which every
process of the tree below `root` can be looked up and enumerates its children, and
whatever kill attempts fail, both tree killers return once the fuel suffices, and
the kill attempts they made hit each process of `{root} ∪ descendants(root)` exactly
once and no other process. -/
theorem tree_killer_kills_each_once (t : ProcTable) (os : WinOS) (root : Int)
    (hU : UniquePids t) (hA : Acyclic t)
    (hok : ∀ x, InTree t root x → LookupOk os t x) :
    ∃ n, ∀ fuel, n ≤ fuel → ∃ tr,
      killByPid fuel os root = some (os.kill root, tr) ∧
      killOnWindows fuel os root = some (os.kill root, tr) ∧
      (∀ x, x = root ∨ Desc t root x → (kills tr).count x = 1) ∧
      (∀ x, x ∈ kills tr → x = root ∨ Desc t root x) := by
  obtain ⟨n, res, ks, ⟨hnodup, hsound, _, _, hfull⟩, hrun⟩ :=
    killByPid_walk t os hU hA root (fun x hx => childrenAgree_of_lookupOk t os x (hok x hx))
  obtain ⟨hres, hall, _⟩ := hfull hok
  subst hres
  refine ⟨n, fun fuel hfuel => ?_⟩
  obtain ⟨tr, h, hk⟩ := hrun fuel hfuel
  subst hk
  refine ⟨tr, h, (killOnWindows_eq_killByPid fuel os root).trans h, ?_, ?_⟩
  · intro x hx
    exact List.count_eq_one_of_mem hnodup (hall x hx)
  · intro x hx
    exact hsound x hx

/-- C6 on the sample table, the kill of grandchild 400 being refused. -/
theorem tree_killer_kills_each_once_witness :
    UniquePids sampleTable ∧ Acyclic sampleTable ∧
    (∀ x, InTree sampleTable 100 x →
      LookupOk (snapshotOS sampleTable (killFailsAt 400)) sampleTable x) ∧
    ∃ n, ∀ fuel, n ≤ fuel → ∃ tr,
      killByPid fuel (snapshotOS sampleTable (killFailsAt 400)) 100 =
        some ((snapshotOS sampleTable (killFailsAt 400)).kill 100, tr) ∧
      killOnWindows fuel (snapshotOS sampleTable (killFailsAt 400)) 100 =
        some ((snapshotOS sampleTable (killFailsAt 400)).kill 100, tr) ∧
      (∀ x, x = 100 ∨ Desc sampleTable 100 x → (kills tr).count x = 1) ∧
      (∀ x, x ∈ kills tr → x = 100 ∨ Desc sampleTable 100 x) :=
  have hU : UniquePids sampleTable := by unfold UniquePids; decide
  have hA : Acyclic sampleTable :=
    acyclic_of_rank sampleTable (fun p => (1000 - p).toNat) (by decide)
  have hok : ∀ x, InTree sampleTable 100 x →
      LookupOk (snapshotOS sampleTable (killFailsAt 400)) sampleTable x :=
    lookupOk_snapshotOS_tree sampleTable _ (by decide) 100 (by decide)
  ⟨hU, hA, hok,
    tree_killer_kills_each_once sampleTable (snapshotOS sampleTable (killFailsAt 400)) 100
      hU hA hok⟩

/-- C7. On a finite process table with one row per pid and no cycle, whose children
`Children()` enumerates wherever it succeeds, both tree killers return once the fuel
suffices, and in the sequence of their kill attempts no descendant of a process
stands after that process and nothing stands after the root; when moreover every
process of the tree can be looked up, every descendant of a killed process stands
before it (children first) and the root is the last process killed. -/
theorem tree_killer_children_first (t : ProcTable) (os : WinOS) (root : Int)
    (hU : UniquePids t) (hA : Acyclic t)
    (hag : ∀ x, InTree t root x → ChildrenAgree os t x) :
    ∃ n, ∀ fuel, n ≤ fuel → ∃ res tr,
      killByPid fuel os root = some (res, tr) ∧
      killOnWindows fuel os root = some (res, tr) ∧
      ((∀ pre a post, kills tr = pre ++ a :: post → ∀ d, Desc t a d → d ∉ post) ∧
        (root ∈ kills tr → (kills tr).getLast? = some root)) ∧
      ((∀ x, InTree t root x → LookupOk os t x) →
        (∀ pre a post, kills tr = pre ++ a :: post → ∀ d, Desc t a d → d ∈ pre) ∧
        (kills tr).getLast? = some root) := by
  obtain ⟨n, res, ks, ⟨_, hsound, hpair, hlast, hfull⟩, hrun⟩ :=
    killByPid_walk t os hU hA root hag
  refine ⟨n, fun fuel hfuel => ?_⟩
  obtain ⟨tr, h, hk⟩ := hrun fuel hfuel
  subst hk
  have hafter : ∀ pre a post, kills tr = pre ++ a :: post →
      ∀ d, Desc t a d → d ∉ post := by
    intro pre a post hsplit d hd hp
    rw [hsplit] at hpair
    exact (List.pairwise_cons.1 (List.pairwise_append.1 hpair).2.1).1 d hp hd
  refine ⟨res, tr, h, (killOnWindows_eq_killByPid fuel os root).trans h,
    ⟨hafter, ?_⟩, ?_⟩
  · intro hr
    obtain ⟨pre0, hpre0⟩ := hlast hr
    rw [hpre0]
    exact List.getLast?_concat pre0
  · intro hok
    obtain ⟨_, hall, pre0, hpre0⟩ := hfull hok
    refine ⟨?_, by rw [hpre0]; exact List.getLast?_concat pre0⟩
    intro pre a post hsplit d hd
    have ha : InTree t root a := hsound a (by rw [hsplit]; simp)
    have hdtree : InTree t root d := by
      rcases ha with rfl | ha
      · exact Or.inr hd
      · exact Or.inr (ha.trans hd)
    have hdmem : d ∈ pre ++ a :: post := by
      rw [← hsplit]
      exact hall d hdtree
    rcases List.mem_append.1 hdmem with hp | hp
    · exact hp
    · rcases List.mem_cons.1 hp with rfl | hp
      · exact absurd hd (hA d)
      · exact absurd hp (hafter pre a post hsplit d hd)

/-- C7 on the sample table, the kill of child 200 being refused. -/
theorem tree_killer_children_first_witness :
    UniquePids sampleTable ∧ Acyclic sampleTable ∧
    (∀ x, InTree sampleTable 100 x →
      ChildrenAgree (snapshotOS sampleTable (killFailsAt 200)) sampleTable x) ∧
    (∀ x, InTree sampleTable 100 x →
      LookupOk (snapshotOS sampleTable (killFailsAt 200)) sampleTable x) ∧
    ∃ n, ∀ fuel, n ≤ fuel → ∃ res tr,
      killByPid fuel (snapshotOS sampleTable (killFailsAt 200)) 100 = some (res, tr) ∧
      killOnWindows fuel (snapshotOS sampleTable (killFailsAt 200)) 100 = some (res, tr) ∧
      (∀ pre a post, kills tr = pre ++ a :: post →
        ∀ d, Desc sampleTable a d → d ∈ pre ∧ d ∉ post) ∧
      (kills tr).getLast? = some 100 :=
  have hU : UniquePids sampleTable := by unfold UniquePids; decide
  have hA : Acyclic sampleTable :=
    acyclic_of_rank sampleTable (fun p => (1000 - p).toNat) (by decide)
  have hok : ∀ x, InTree sampleTable 100 x →
      LookupOk (snapshotOS sampleTable (killFailsAt 200)) sampleTable x :=
    lookupOk_snapshotOS_tree sampleTable _ (by decide) 100 (by decide)
  have hag : ∀ x, InTree sampleTable 100 x →
      ChildrenAgree (snapshotOS sampleTable (killFailsAt 200)) sampleTable x :=
    fun x hx => childrenAgree_of_lookupOk _ _ x (hok x hx)
  ⟨hU, hA, hag, hok,
    (tree_killer_children_first sampleTable (snapshotOS sampleTable (killFailsAt 200)) 100
      hU hA hag).imp fun _ h fuel hfuel =>
        (h fuel hfuel).imp fun _ h2 => h2.imp fun _ h3 =>
          ⟨h3.1, h3.2.1, fun pre a post hs d hd =>
            ⟨(h3.2.2.2 hok).1 pre a post hs d hd, h3.2.2.1.1 pre a post hs d hd⟩,
            (h3.2.2.2 hok).2⟩⟩

/-- C8, as stated, fails. For a root that is no longer live, the POSIX `killProcess`
returns `ESRCH` and the Windows `killProcess` returns gopsutil's
process-not-running error. -/
theorem kill_of_exited_root_is_an_error :
    Posix.killProcess (posixOfTable []) (some { pid := 4242 }) =
      Outcome.returned (some ESRCH) ∧
    Windows.killProcess 1 (snapshotOS [] (fun _ => none)) (some { pid := 4242 }) =
      some (some ErrorProcessNotRunning, []) := by
  decide

/-- C8, amended. The POSIX `killProcess` returns the result of its one `SIGKILL` to
the negated pid unchanged, whatever it is; the Windows `killProcess` returns nil for
a nil handle and otherwise what `killByPid` returns, which for a root that
`process.NewProcess` rejects with `e` is `e`, no kill having been attempted. -/
theorem killProcess_passes_errors_on (posix : PosixOS) (win : WinOS) (proc : OsProcess)
    (fuel : Nat) :
    Posix.killProcess posix (some proc) =
      Outcome.returned (posix.kill (-proc.pid) Signal.SIGKILL) ∧
    Windows.killProcess fuel win none = some (none, []) ∧
    Windows.killProcess fuel win (some proc) = killByPid fuel win proc.pid ∧
    (∀ e, win.newProcess (int32 proc.pid) = some e →
      Windows.killProcess (fuel + 1) win (some proc) = some (some e, [])) := by
  refine ⟨rfl, rfl, rfl, ?_⟩
  intro e he
  simp [Windows.killProcess, killByPid, he]

/-- The amended C8 at an exited root with pid 4242. -/
theorem killProcess_passes_errors_on_witness :
    (snapshotOS [] (fun _ => none)).newProcess (int32 4242) = some ErrorProcessNotRunning ∧
    Windows.killProcess (0 + 1) (snapshotOS [] (fun _ => none)) (some { pid := 4242 }) =
      some (some ErrorProcessNotRunning, []) :=
  ⟨by decide,
    (killProcess_passes_errors_on (posixOfTable []) (snapshotOS [] (fun _ => none))
      { pid := 4242 } 0).2.2.2 ErrorProcessNotRunning (by decide)⟩

/-- C9, as stated, fails. With a root 100 and one child 200 whose kill is refused,
both tree killers print the child's error and return nil. -/
theorem child_kill_error_not_returned :
    (snapshotOS pairTable (killFailsAt 200)).kill 200 = some accessDenied ∧
    killByPid 2 (snapshotOS pairTable (killFailsAt 200)) 100 =
      some (none, [KEvent.kill 200, KEvent.log 200 accessDenied,
        KEvent.log 200 accessDenied, KEvent.kill 100]) ∧
    killOnWindows 2 (snapshotOS pairTable (killFailsAt 200)) 100 =
      some (none, [KEvent.kill 200, KEvent.log 200 accessDenied,
        KEvent.log 200 accessDenied, KEvent.kill 100]) := by
  decide

/-- C9, amended. What either tree killer returns is the error of the root's own
processing alone: that of `process.NewProcess` for the root, else that of
`os.FindProcess`, else that of the root's own kill. On a table as in C6 it returns,
given enough fuel, exactly the result of the root's kill, whichever kills of
descendants failed. -/
theorem tree_killer_returns_root_error :
    (∀ (fuel : Nat) (os : WinOS) (pid : Int) (res : Option GoError) (tr : List KEvent),
      (killByPid fuel os pid = some (res, tr) → res = ownError os pid) ∧
      (killOnWindows fuel os pid = some (res, tr) → res = ownError os pid)) ∧
    (∀ (t : ProcTable) (os : WinOS) (root : Int), UniquePids t → Acyclic t →
      (∀ x, InTree t root x → LookupOk os t x) →
      ∃ n, ∀ fuel, n ≤ fuel → ∃ tr,
        killByPid fuel os root = some (os.kill root, tr) ∧
        killOnWindows fuel os root = some (os.kill root, tr)) := by
  refine ⟨fun fuel os pid res tr => ⟨ownError_eq fuel os pid res tr, ?_⟩, ?_⟩
  · intro h
    rw [killOnWindows_eq_killByPid] at h
    exact ownError_eq fuel os pid res tr h
  · intro t os root hU hA hok
    obtain ⟨n, res, ks, ⟨_, _, _, _, hfull⟩, hrun⟩ :=
      killByPid_walk t os hU hA root
        (fun x hx => childrenAgree_of_lookupOk t os x (hok x hx))
    obtain ⟨hres, _, _⟩ := hfull hok
    subst hres
    refine ⟨n, fun fuel hfuel => ?_⟩
    obtain ⟨tr, h, _⟩ := hrun fuel hfuel
    exact ⟨tr, h, (killOnWindows_eq_killByPid fuel os root).trans h⟩

/-- The amended C9 on the root-and-child table, the child's kill being refused: nil
is returned, the result of the root's own kill. -/
theorem tree_killer_returns_root_error_witness :
    killByPid 2 (snapshotOS pairTable (killFailsAt 200)) 100 =
      some (none, [KEvent.kill 200, KEvent.log 200 accessDenied,
        KEvent.log 200 accessDenied, KEvent.kill 100]) ∧
    (none : Option GoError) = ownError (snapshotOS pairTable (killFailsAt 200)) 100 :=
  ⟨by decide,
    (tree_killer_returns_root_error.1 2 (snapshotOS pairTable (killFailsAt 200)) 100 none
      [KEvent.kill 200, KEvent.log 200 accessDenied, KEvent.log 200 accessDenied,
        KEvent.kill 100]).1 (by decide)⟩

end McpGo
